import Mathlib

/-!
Verification of the MACS signal-track and HMMRATAC pipeline.

This development embeds, in Lean, the parts of the repository that the
examined properties are about:

* the score-transform engine and its peak-caller (`scoreTrackII`), whose
  implementation is not shipped under `src/` — only its unit test
  `src/test/test_ScoreTrack.py` is.  Those operations are modelled from the
  specification (spec sections 4.3 and 8) and checked against the values the
  repository's test pins down;
* the HMM state-labelling, state-collapsing and composite-record code of
  `src/MACS3/Commands/hmmratac_cmd.py`, which is embedded directly from the
  source;
* the `Regions` interval algebra (`expand` / `merge_overlap`), modelled from
  spec section 4.1, again because the class itself is not under `src/`;
* the pileup summary / normalization step of the HMMRATAC pipeline
  (spec sections 4.2 and 7).

Genomic positions are naturals, signal values are rationals.
-/

namespace MACS

/-! ### Score-transform engine (spec 4.3, test `Test_ScoreTrackII`)

A `scoreTrackII` chromosome is a step function over `(end_position, score)`
pairs; segment `i` covers positions from the previous end (0 for the first)
up to `end_position` (exclusive). -/

/-- The `p`-scored chrY track built from the test's `test_regions1`
(`Test_ScoreTrackII.setUp`): end positions with the per-segment scores the
repository's test pins down (`bdg3` / `p_result` in
`src/test/test_ScoreTrack.py`, five-decimal precision). -/
def p_scored_track : List (Nat × ℚ) :=
  [(10, mkRat 6048912 100000), (60, mkRat 37599 100000), (110, mkRat 7723 100000),
   (160, mkRat 6 100000), (210, mkRat 640804 100000)]

/-- Rounding half-up to two decimals, as the test's `round(x, 2)` does on
these values (none of which is an exact half-cent).  For `x = n/d` in lowest
terms this is `⌊100 x + 1/2⌋ / 100 = ⌊(200 n + d) / (2 d)⌋ / 100`, written on
the numerator and denominator directly so that it evaluates by kernel
reduction. -/
def round2 (x : ℚ) : ℚ := mkRat ((200 * x.num + (x.den : ℤ)).fdiv (2 * (x.den : ℤ))) 100

/-- Turn the `(end, score)` step representation into explicit
`(start, end, score)` segments; `pos` is the start of the first segment. -/
def track_segments (pos : Nat) : List (Nat × ℚ) → List (Nat × Nat × ℚ)
  | [] => []
  | (e, v) :: rest => (pos, e, v) :: track_segments e rest

/-- Modelled from the spec: a segment is "above" when
`cutoff ≤ score ≤ up_limit`, with `none` standing for an infinite
upper limit (spec 4.3, `call_peaks`). -/
def seg_above (cutoff : ℚ) (up_limit : Option ℚ) (s : Nat × Nat × ℚ) : Bool :=
  decide (cutoff ≤ s.2.2) &&
    (match up_limit with
     | none => true
     | some u => decide (s.2.2 ≤ u))

/-- Modelled from the spec: merge consecutive above-cutoff segments whose
gap (next start minus current end) is at most `max_gap`; the merged run
keeps the maximum score (spec 4.3, `call_peaks`). -/
def merge_gaps (max_gap : Nat) : (Nat × Nat × ℚ) → List (Nat × Nat × ℚ) → List (Nat × Nat × ℚ)
  | cur, [] => [cur]
  | cur, x :: xs =>
    if x.1 - cur.2.1 ≤ max_gap then
      merge_gaps max_gap (cur.1, x.2.1, max cur.2.2 x.2.2) xs
    else
      cur :: merge_gaps max_gap x xs

/-- Modelled from the spec: `call_peaks(cutoff, min_length, max_gap,
up_limit)` — mark segments with `cutoff ≤ score ≤ up_limit`, merge across
gaps `≤ max_gap`, discard merged runs shorter than `min_length`; each run
reports the maximum score over the run (spec 4.3). -/
def call_peaks (track : List (Nat × ℚ)) (cutoff : ℚ) (min_length max_gap : Nat)
    (up_limit : Option ℚ) : List (Nat × Nat × ℚ) :=
  match (track_segments 0 track).filter (seg_above cutoff up_limit) with
  | [] => []
  | a :: rest => (merge_gaps max_gap a rest).filter (fun r => min_length ≤ r.2.1 - r.1)

/-- Peaks tagged with the chromosome the track belongs to. -/
def call_peaks_bdg (chrom : String) (track : List (Nat × ℚ)) (cutoff : ℚ)
    (min_length max_gap : Nat) (up_limit : Option ℚ) : List (String × Nat × Nat × ℚ) :=
  (call_peaks track cutoff min_length max_gap up_limit).map (fun r => (chrom, r))

/-! ### HMM state labelling (`src/MACS3/Commands/hmmratac_cmd.py`, lines 204-207)

```
i_open_region = np.where(hmm_model.means_ == max(hmm_model.means_[0:3,0]))[0][0]
i_background_region = np.where(hmm_model.transmat_ == min(hmm_model.transmat_[0:3, i_open_region]))[0][0]
i_nucleosomal_region = list(set([0, 1, 2]) - set([i_open_region, i_background_region]))[0]
```

`means_` is the 3 x 4 matrix of per-state per-channel emission means
(channel 0 is the accessibility-associated short-fragment channel) and
`transmat_` the 3 x 3 transition matrix. -/

/-- A trained 3-state HMM model, as the labelling code reads it. -/
structure HMMModel where
  means_ : Fin 3 → Fin 4 → ℚ
  transmat_ : Fin 3 → Fin 3 → ℚ

/-- Python's `max(means_[0:3, 0])`: the largest mean on channel 0. -/
def max_means_col0 (m : HMMModel) : ℚ :=
  max (m.means_ 0 0) (max (m.means_ 1 0) (m.means_ 2 0))

/-- Python's `min(transmat_[0:3, j])`: the smallest entry of column `j`. -/
def min_transmat_col (m : HMMModel) (j : Fin 3) : ℚ :=
  min (m.transmat_ 0 j) (min (m.transmat_ 1 j) (m.transmat_ 2 j))

/-- Does a matrix row contain the value `v` in any column? -/
def row_contains {k : Nat} (row : Fin k → ℚ) (v : ℚ) : Bool :=
  decide (∃ j, row j = v)

/-- `np.where(A == v)[0][0]` for a 3-row matrix `A`: numpy compares the
whole matrix against `v` and `[0]` lists the matching row indices in
row-major order, so `[0][0]` is the first row whose row contains `v`
anywhere.  In both uses below `v` is the maximum (resp. minimum) of one
column, hence is always present in some row, so the final branch is the
"found in the last row" case, never the missing-value case. -/
def first_row_with (p0 p1 _p2 : Bool) : Fin 3 :=
  if p0 then 0 else if p1 then 1 else 2

/-- Line 205: index of the state the code labels "open". -/
def i_open_region (m : HMMModel) : Fin 3 :=
  first_row_with
    (row_contains (m.means_ 0) (max_means_col0 m))
    (row_contains (m.means_ 1) (max_means_col0 m))
    (row_contains (m.means_ 2) (max_means_col0 m))

/-- Line 206: index of the state the code labels "background". -/
def i_background_region (m : HMMModel) : Fin 3 :=
  first_row_with
    (row_contains (m.transmat_ 0) (min_transmat_col m (i_open_region m)))
    (row_contains (m.transmat_ 1) (min_transmat_col m (i_open_region m)))
    (row_contains (m.transmat_ 2) (min_transmat_col m (i_open_region m)))

/-- Line 207: `list(set([0, 1, 2]) - set([a, b]))[0]`.  CPython iterates a
set of the small integers 0, 1, 2 in ascending order, so this is the least
index different from both `a` and `b`. -/
def remaining_index (a b : Fin 3) : Fin 3 :=
  (([0, 1, 2] : List (Fin 3)).filter (fun x => decide (x ≠ a) && decide (x ≠ b))).headD 0

/-- Line 207: index of the state the code labels "nucleosomal". -/
def i_nucleosomal_region (m : HMMModel) : Fin 3 :=
  remaining_index (i_open_region m) (i_background_region m)

/-- A trained model on which the labelling goes wrong: the largest
channel-0 mean is 9, held by state 1, but the value 9 also occurs at
channel 1 of state 0, so the row-major `np.where` scan returns row 0. -/
def whereBugModel : HMMModel where
  means_ := fun i j =>
    if i = 0 ∧ j = 0 then 5
    else if (i = 0 ∧ j = 1) ∨ (i = 1 ∧ j = 0) then 9
    else 0
  transmat_ := fun _ _ => mkRat 1 3

/-- A trained model on which `i_open_region = i_background_region`: state 0
has the (unique) largest channel-0 mean, and the smallest entry of
transition-matrix column 0 sits in row 0 itself. -/
def openEqBgModel : HMMModel where
  means_ := fun i j =>
    if j = 0 then (if i = 0 then 10 else if i = 1 then 1 else 2) else 0
  transmat_ := fun i j =>
    if i = 0 then (if j = 0 then mkRat 1 10 else mkRat 45 100)
    else if i = 1 then (if j = 0 then mkRat 2 10 else mkRat 4 10)
    else (if j = 0 then mkRat 3 10 else mkRat 35 100)

/-- A trained model with a generic (degeneracy-free) parameterization:
state 1 uniquely holds the largest channel-0 mean, and the minimum of
transition column 1 occurs only in row 0. -/
def genericModel : HMMModel where
  means_ := fun i j =>
    if j = 0 then (if i = 0 then 1 else if i = 1 then 9 else 0) else 0
  transmat_ := fun i j =>
    if i = 0 then (if j = 1 then mkRat 1 10 else mkRat 45 100)
    else if i = 1 then (if j = 1 then mkRat 3 10 else mkRat 35 100)
    else (if j = 1 then mkRat 3 10 else mkRat 35 100)

/-! ### State collapsing and composite accessible regions
(`src/MACS3/Commands/hmmratac_cmd.py`, lines 261-310) -/

/-- One per-bin prediction row as the cleanup loop of lines 261-276 reads
it: chromosome and start position of the bin (`candidate_bins[l]`) and the
arg-max posterior label (`"open"`, `"nuc"` or `"bg"`). -/
structure BinRow where
  chrom : String
  pos : Nat
  label : String
deriving DecidableEq

/-- One row of the `_states.bed` output (and of `cleaned_data` after it is
read back on line 280): chromosome, start, end, label. -/
structure StateSeg where
  chrom : String
  start : Nat
  stop : Nat
  label : String
deriving DecidableEq

/-- Loop body of lines 264-275.  The loop index `l` runs over `1 .. n-1`
with a running `start_pos`; here `prev` is bin `l-1` and the list argument
holds bins `l` onward.  On a label change the run up to `l-1` is written
(with the chromosome of bin `l`!) and `start_pos` is reset; otherwise, only
when `l` is the final index, the `elif` flushes the final run.  When the
label changes at the final bin, the `if` branch fires and the `elif` does
not, so the final single-bin run is never written. -/
def collapse_go (binsize : Nat) (start_pos : Nat) (prev : BinRow) :
    List BinRow → List StateSeg
  | [] => []
  | [curr] =>
    if prev.label ≠ curr.label then
      [⟨curr.chrom, start_pos, prev.pos + binsize, prev.label⟩]
    else
      [⟨curr.chrom, start_pos, curr.pos + binsize, prev.label⟩]
  | curr :: rest =>
    if prev.label ≠ curr.label then
      ⟨curr.chrom, start_pos, prev.pos + binsize, prev.label⟩ ::
        collapse_go binsize curr.pos curr rest
    else
      collapse_go binsize start_pos curr rest

/-- Lines 261-276: collapse the per-bin arg-max labels into the
`_states.bed` rows (`start_pos` initialized to the first bin's position). -/
def collapse_states (binsize : Nat) : List BinRow → List StateSeg
  | [] => []
  | first :: rest => collapse_go binsize first.pos first rest

/-- Lines 283-287: scan the `_states.bed` rows and collect every window of
three consecutive rows labelled nuc / open / nuc (`accessible_regions`). -/
def accessible_region_windows : List StateSeg → List (StateSeg × StateSeg × StateSeg)
  | a :: b :: c :: rest =>
    (if a.label = "nuc" ∧ b.label = "open" ∧ c.label = "nuc" then [(a, b, c)] else []) ++
      accessible_region_windows (b :: c :: rest)
  | _ => []

/-- Specification-side definition for comparison: all windows of three
consecutive rows, in order. -/
def windows3 : List StateSeg → List (StateSeg × StateSeg × StateSeg)
  | a :: b :: c :: rest => (a, b, c) :: windows3 (b :: c :: rest)
  | _ => []

/-- Specification-side predicate: the labels of a window are exactly
(nucleosomal, open, nucleosomal). -/
def nuc_open_nuc (w : StateSeg × StateSeg × StateSeg) : Bool :=
  decide (w.1.label = "nuc" ∧ w.2.1.label = "open" ∧ w.2.2.label = "nuc")

/-- A BED12/gappedPeak record as `broadpeak.add` receives it on lines
303-310.  `thickStart`/`thickEnd` are passed as decimal strings in the
source; they are modelled by their numeric values.  `blockNum` is Python's
`len(accessible_regions[i])/3`, a float. -/
structure BroadPeakRecord where
  chrom : String
  start : Nat
  stop : Nat
  thickStart : Nat
  thickEnd : Nat
  blockNum : ℚ
  blockSizes : List Nat
  blockStarts : List Nat
deriving DecidableEq

/-- Lines 295-310, for one element of `accessible_regions` — always a
three-element nuc/open/nuc window `(w.1, w.2.1, w.2.2)`, as built on lines
283-287.  The `for j in range(1, len-1)` loop visits only index 1, the
middle (open) element, so the single block's size and start come from the
open interval; `[0][1]` and `[-1][2]` give the outer bounds, `[1][1]` and
`[-2][2]` the thick region, and the chromosome is taken from `[1][0]`. -/
def make_broadpeak (w : StateSeg × StateSeg × StateSeg) : BroadPeakRecord where
  chrom := w.2.1.chrom
  start := w.1.start
  stop := w.2.2.stop
  thickStart := w.2.1.start
  thickEnd := w.2.1.stop
  blockNum := (3 : ℚ) / 3
  blockSizes := [w.2.1.stop - w.2.1.start]
  blockStarts := [w.2.1.start]

/-- A concrete nuc/open/nuc window used to exhibit the block-field
behaviour: nucleosomal flanks `[0,10)` and `[30,40)` around the open
interval `[10,30)`. -/
def flankTriplet : StateSeg × StateSeg × StateSeg :=
  (⟨"chrY", 0, 10, "nuc"⟩, ⟨"chrY", 10, 30, "open"⟩, ⟨"chrY", 30, 40, "nuc"⟩)

/-! ### RegionSet interval algebra (spec 4.1)

The `Regions` class used by `hmmratac_cmd.run` (lines 138-139) is not
shipped under `src/`; `expand` and `merge_overlap` are modelled from the
spec: "`expand(flank)`: start = max(0, start - flank), end += flank,
per-interval independently.  `merge_overlap()`: sort by start per
chromosome, coalesce runs where next.start ≤ current.end."  An interval is
a `(start, end)` pair of naturals covering positions `start ≤ p < end`. -/

/-- Modelled from the spec: per-interval expansion.  On naturals the
truncated subtraction `s - flank` is exactly `max(0, s - flank)`. -/
def expand (flank : Nat) (l : List (Nat × Nat)) : List (Nat × Nat) :=
  l.map (fun se => (se.1 - flank, se.2 + flank))

/-- Ordering of intervals by start position. -/
def startLE (a b : Nat × Nat) : Prop := a.1 ≤ b.1

instance : DecidableRel startLE := fun a b => Nat.decLe a.1 b.1

instance : IsTotal (Nat × Nat) startLE := ⟨fun a b => Nat.le_total a.1 b.1⟩

instance : IsTrans (Nat × Nat) startLE := ⟨fun _ _ _ => Nat.le_trans⟩

/-- Modelled from the spec: coalesce a start-sorted run of intervals,
merging the two front intervals while `next.start ≤ current.end` (the
merged interval keeps the larger end).  The fuel argument — always the
list's length at the call site — only makes the recursion structural. -/
def coalesce : Nat → List (Nat × Nat) → List (Nat × Nat)
  | 0, l => l
  | _ + 1, [] => []
  | _ + 1, [x] => [x]
  | n + 1, a :: b :: rest =>
    if b.1 ≤ a.2 then coalesce n ((a.1, max a.2 b.2) :: rest)
    else a :: coalesce n (b :: rest)

/-- Modelled from the spec: `merge_overlap()` — sort one chromosome's
intervals by start, then coalesce overlapping runs. -/
def merge_overlap (l : List (Nat × Nat)) : List (Nat × Nat) :=
  coalesce (List.insertionSort startLE l).length (List.insertionSort startLE l)

/-- The set of integer positions covered by a list of intervals. -/
def covered_set : List (Nat × Nat) → Finset Nat
  | [] => ∅
  | x :: rest => Finset.Ico x.1 x.2 ∪ covered_set rest

/-- Covered length of one chromosome's intervals: the sum of the interval
lengths after merging overlaps. -/
def covered_length (l : List (Nat × Nat)) : Nat :=
  ((merge_overlap l).map (fun se => se.2 - se.1)).sum

/-- Separation of intervals: the first ends strictly before the second
starts. -/
def sep (a b : Nat × Nat) : Prop := a.2 < b.1

/-- `expand` applied to every chromosome of a region set. -/
def expand_regions (flank : Nat) (R : List (String × List (Nat × Nat))) :
    List (String × List (Nat × Nat)) :=
  R.map (fun cr => (cr.1, expand flank cr.2))

/-- Total covered length of a region set, summed over its chromosomes. -/
def total_covered_length (R : List (String × List (Nat × Nat))) : Nat :=
  (R.map (fun cr => covered_length cr.2)).sum

/-! ### Pileup summary and fold-change normalization
(spec 4.2 and 7; `hmmratac_cmd.run` lines 118-121)

The `bedGraphTrackI` implementation behind `fc_bdg.summary()` and
`fc_bdg.apply_func(lambda x: x/mean_v)` is not under `src/`; both are
modelled from the spec: `summary()` returns length-weighted statistics,
with mean 0 (not an error) for a zero-length track (spec 4.2), and a
zero-mean normalization divide is a `NumericalDegeneracyError`, fatal for
that scoring run, with no partial artifacts written for the failed stage
(spec 7).  The caller in `src` (`run`, lines 118-121) installs no handler,
so the error propagates, and the stage's artifact (the training-region BED
of lines 146-150) is only written downstream of a successful
normalization. -/

/-- Error classes of spec section 7. -/
inductive PipelineError where
  | ConfigurationError
  | NumericalDegeneracyError
  | DataShapeError
deriving DecidableEq

/-- Modelled from the spec: the length-weighted value total of a pileup
track given as `(end_position, value)` pairs; `pos` is where the pending
segment starts (0 at top level). -/
def track_weighted_sum (pos : Nat) : List (Nat × ℚ) → ℚ
  | [] => 0
  | (e, v) :: rest => ((e - pos : Nat) : ℚ) * v + track_weighted_sum e rest

/-- Modelled from the spec: the total covered length of a pileup track. -/
def track_length (pos : Nat) : List (Nat × ℚ) → Nat
  | [] => 0
  | (e, _) :: rest => (e - pos) + track_length e rest

/-- Modelled from the spec: the length-weighted mean of `summary()`; a
zero-length track yields mean 0 rather than an error (spec 4.2). -/
def summary_mean (t : List (Nat × ℚ)) : ℚ :=
  if track_length 0 t = 0 then 0
  else track_weighted_sum 0 t / ((track_length 0 t : Nat) : ℚ)

/-- Modelled from the spec: the fold-change normalization
`apply_func(lambda x: x / mean_v)` of `run` (line 121), with the zero-mean
divide surfaced as the fatal `NumericalDegeneracyError` of spec 7. -/
def normalize_by_mean (t : List (Nat × ℚ)) : Except PipelineError (List (Nat × ℚ)) :=
  if summary_mean t = 0 then Except.error PipelineError.NumericalDegeneracyError
  else Except.ok (t.map (fun ev => (ev.1, ev.2 / summary_mean t)))

/-- The fold-change scoring stage together with the artifacts it writes:
only a successful normalization goes on to produce the stage's
training-region artifact; a failed stage writes nothing (spec 7). -/
def fold_change_stage (t : List (Nat × ℚ)) :
    Except PipelineError (List (Nat × ℚ) × List String) :=
  match normalize_by_mean t with
  | Except.error e => Except.error e
  | Except.ok fc => Except.ok (fc, ["training_regions.bed"])

end MACS

namespace MACS

/-! ### Theorems -/

/-- Claim C2: `call_peaks(cutoff=0.10, min_length=10, max_gap=10)` on the
`p`-scored chrY track returns exactly two peaks, `(chrY, 0, 60)` and
`(chrY, 160, 210)`, whose run-maximum scores round (two decimals) to
`60.49` and `6.41`. -/
theorem C2_call_peaks_two_peaks :
    call_peaks_bdg ("chrY") p_scored_track (mkRat 1 10) 10 10 none =
      [("chrY", 0, 60, mkRat 6048912 100000), ("chrY", 160, 210, mkRat 640804 100000)] ∧
    round2 (mkRat 6048912 100000) = mkRat 6049 100 ∧
    round2 (mkRat 640804 100000) = mkRat 641 100 := by
  refine ⟨?_, ?_, ?_⟩ <;> decide

/-- Claim C3: the labelling code does not always assign "open" to the state
with the largest accessibility-channel mean.  On `whereBugModel` the largest
channel-0 mean belongs to state 1, yet `i_open_region` returns 0, because
`np.where(means_ == max(means_[0:3,0]))[0][0]` scans the whole matrix and
row 0 happens to contain the maximal value in another channel. -/
theorem C3_open_label_mismatch :
    i_open_region whereBugModel = 0 ∧
    whereBugModel.means_ 0 0 < whereBugModel.means_ 1 0 ∧
    (∀ i, whereBugModel.means_ i 0 ≤ whereBugModel.means_ 1 0) := by
  decide

/-- Helper for claim C10: behaviour of `remaining_index` over all index
pairs, by finite case analysis. -/
theorem remaining_index_spec (a b : Fin 3) :
    remaining_index a b ≠ a ∧ remaining_index a b ≠ b ∧
    (a ≠ b → ({a, remaining_index a b, b} : Finset (Fin 3)) = Finset.univ) := by
  revert a b
  decide

/-- Claim C10 (amended): `i_nucleosomal_region` always differs from both
`i_open_region` and `i_background_region`, and the three indices form a
permutation of the state set exactly when `i_open_region` and
`i_background_region` differ — which the code does not guarantee. -/
theorem C10_label_indices (m : HMMModel) :
    i_nucleosomal_region m ≠ i_open_region m ∧
    i_nucleosomal_region m ≠ i_background_region m ∧
    (i_open_region m ≠ i_background_region m →
      ({i_open_region m, i_nucleosomal_region m, i_background_region m} :
        Finset (Fin 3)) = Finset.univ) := by
  have h := remaining_index_spec (i_open_region m) (i_background_region m)
  exact ⟨h.1, h.2.1, h.2.2⟩

/-- Claim C10 (witness): on a degeneracy-free trained model the three label
indices are a permutation of the state set. -/
theorem C10_label_indices_witness :
    i_nucleosomal_region genericModel ≠ i_open_region genericModel ∧
    ({i_open_region genericModel, i_nucleosomal_region genericModel,
      i_background_region genericModel} : Finset (Fin 3)) = Finset.univ :=
  ⟨(C10_label_indices genericModel).1,
   (C10_label_indices genericModel).2.2 (by decide)⟩

/-- Claim C5: a composite-record window is collected for three consecutive
`_states.bed` rows exactly when their labels are (nuc, open, nuc):
`accessible_regions` equals the list of all three-row windows filtered by
that label pattern. -/
theorem C5_window_emitted_iff_nuc_open_nuc (rows : List StateSeg) :
    accessible_region_windows rows = (windows3 rows).filter nuc_open_nuc := by
  induction rows with
  | nil => rfl
  | cons a l ih =>
    match l with
    | [] => rfl
    | [b] => rfl
    | b :: c :: rest =>
      rw [accessible_region_windows, windows3, List.filter_cons, ih]
      by_cases h : a.label = "nuc" ∧ b.label = "open" ∧ c.label = "nuc"
      · simp [nuc_open_nuc, h]
      · simp [nuc_open_nuc, h]

/-- Claim C4 (amended): every record built from a collected nuc/open/nuc
window has outer bounds from the first row's start to the last row's end
and thick region equal to the open row's bounds, but its single block
(`blockNum = 1`) carries the open (middle) interval's size and absolute
start — not the nucleosomal flank sub-blocks. -/
theorem C4_record_fields (rows : List StateSeg) (w : StateSeg × StateSeg × StateSeg)
    (_hw : w ∈ accessible_region_windows rows) :
    (make_broadpeak w).chrom = w.2.1.chrom ∧
    (make_broadpeak w).start = w.1.start ∧
    (make_broadpeak w).stop = w.2.2.stop ∧
    (make_broadpeak w).thickStart = w.2.1.start ∧
    (make_broadpeak w).thickEnd = w.2.1.stop ∧
    (make_broadpeak w).blockNum = 1 ∧
    (make_broadpeak w).blockSizes = [w.2.1.stop - w.2.1.start] ∧
    (make_broadpeak w).blockStarts = [w.2.1.start] := by
  refine ⟨rfl, rfl, rfl, rfl, rfl, ?_, rfl, rfl⟩
  show (3 : ℚ) / 3 = 1
  norm_num

/-- Claim C4 (witness): the record fields at the concrete window
`flankTriplet`, which is collected from the three-row input consisting of
its components. -/
theorem C4_record_fields_witness :
    (make_broadpeak flankTriplet).chrom = flankTriplet.2.1.chrom ∧
    (make_broadpeak flankTriplet).start = flankTriplet.1.start ∧
    (make_broadpeak flankTriplet).stop = flankTriplet.2.2.stop ∧
    (make_broadpeak flankTriplet).thickStart = flankTriplet.2.1.start ∧
    (make_broadpeak flankTriplet).thickEnd = flankTriplet.2.1.stop ∧
    (make_broadpeak flankTriplet).blockNum = 1 ∧
    (make_broadpeak flankTriplet).blockSizes =
      [flankTriplet.2.1.stop - flankTriplet.2.1.start] ∧
    (make_broadpeak flankTriplet).blockStarts = [flankTriplet.2.1.start] :=
  C4_record_fields [flankTriplet.1, flankTriplet.2.1, flankTriplet.2.2]
    flankTriplet (by decide)

/-- Claim C4 (counterexample): on `flankTriplet` the emitted record's block
sizes and starts are `[20]` and `[10]` — the open interval — and differ
from the nucleosomal flank sub-blocks (sizes `[10, 10]`, starts `[0, 30]`)
that the claim states. -/
theorem C4_blocks_are_open_not_flanks :
    (make_broadpeak flankTriplet).blockSizes = [20] ∧
    (make_broadpeak flankTriplet).blockStarts = [10] ∧
    (make_broadpeak flankTriplet).blockSizes ≠
      [flankTriplet.1.stop - flankTriplet.1.start,
       flankTriplet.2.2.stop - flankTriplet.2.2.start] ∧
    (make_broadpeak flankTriplet).blockStarts ≠
      [flankTriplet.1.start, flankTriplet.2.2.start] := by
  refine ⟨rfl, rfl, by decide, by decide⟩

/-- Claim C6: on the two-bin input whose labels are (nuc, open) with bin
size 10, the collapsing loop of lines 261-276 emits only the interval of
the first run and drops the final "open" run entirely — so the output does
not contain one interval per maximal run, and the second bin is covered by
no interval carrying its label. -/
theorem C6_final_run_dropped :
    collapse_states 10 [⟨"chrY", 0, "nuc"⟩, ⟨"chrY", 10, "open"⟩] =
      [⟨"chrY", 0, 10, "nuc"⟩] ∧
    ∀ s ∈ collapse_states 10 [⟨"chrY", 0, "nuc"⟩, ⟨"chrY", 10, "open"⟩],
      s.label ≠ "open" := by
  refine ⟨rfl, by decide⟩

/-- Membership in the covered set of an interval list. -/
theorem mem_covered_set {l : List (Nat × Nat)} {p : Nat} :
    p ∈ covered_set l ↔ ∃ se ∈ l, se.1 ≤ p ∧ p < se.2 := by
  induction l with
  | nil => simp [covered_set]
  | cons x rest ih =>
    simp only [covered_set, Finset.mem_union, Finset.mem_Ico, ih, List.mem_cons]
    constructor
    · rintro (h | ⟨se, hm, hs⟩)
      · exact ⟨x, Or.inl rfl, h⟩
      · exact ⟨se, Or.inr hm, hs⟩
    · rintro ⟨se, rfl | hm, hs⟩
      · exact Or.inl hs
      · exact Or.inr ⟨se, hm, hs⟩

/-- Permuting the interval list does not change the covered set. -/
theorem covered_set_of_perm {l l' : List (Nat × Nat)} (h : l.Perm l') :
    covered_set l = covered_set l' := by
  ext p
  simp only [mem_covered_set]
  constructor <;> rintro ⟨se, hm, hs⟩
  · exact ⟨se, h.mem_iff.mp hm, hs⟩
  · exact ⟨se, h.mem_iff.mpr hm, hs⟩

/-- Two overlapping `Ico`s with ordered starts merge into one. -/
theorem Ico_union_of_overlap {a1 a2 b1 b2 : Nat} (h1 : a1 ≤ b1) (h2 : b1 ≤ a2) :
    Finset.Ico a1 (max a2 b2) = Finset.Ico a1 a2 ∪ Finset.Ico b1 b2 := by
  ext p
  simp only [Finset.mem_union, Finset.mem_Ico]
  omega

/-- Coalescing a start-sorted interval list preserves the covered set. -/
theorem coalesce_covered_set :
    ∀ (n : Nat) (l : List (Nat × Nat)), l.Sorted startLE →
      covered_set (coalesce n l) = covered_set l
  | 0, _, _ => rfl
  | _ + 1, [], _ => rfl
  | _ + 1, [_], _ => rfl
  | n + 1, a :: b :: rest, hs => by
    rcases List.sorted_cons.mp hs with ⟨ha, hs1⟩
    rw [coalesce]
    by_cases h : b.1 ≤ a.2
    · rw [if_pos h]
      have hs' : List.Sorted startLE ((a.1, max a.2 b.2) :: rest) := by
        rw [List.sorted_cons]
        exact ⟨fun c hc => ha c (List.mem_cons_of_mem b hc), (List.sorted_cons.mp hs1).2⟩
      rw [coalesce_covered_set n _ hs']
      show covered_set ((a.1, max a.2 b.2) :: rest) = covered_set (a :: b :: rest)
      simp only [covered_set]
      rw [Ico_union_of_overlap (ha b (List.mem_cons_self b rest)) h, Finset.union_assoc]
    · rw [if_neg h]
      show covered_set (a :: coalesce n (b :: rest)) = covered_set (a :: b :: rest)
      simp only [covered_set]
      rw [coalesce_covered_set n _ hs1]
      simp only [covered_set, Finset.union_assoc]

/-- Every interval coalescing produces starts at or above a lower bound on
the input starts. -/
theorem coalesce_start_bound :
    ∀ (n : Nat) (l : List (Nat × Nat)) (s : Nat), (∀ x ∈ l, s ≤ x.1) →
      ∀ y ∈ coalesce n l, s ≤ y.1
  | 0, _, _, h => h
  | _ + 1, [], _, _ => by simp [coalesce]
  | _ + 1, [x], s, h => by simpa [coalesce] using h
  | n + 1, a :: b :: rest, s, h => by
    rw [coalesce]
    by_cases hc : b.1 ≤ a.2
    · rw [if_pos hc]
      apply coalesce_start_bound n _ s
      intro x hx
      rcases List.mem_cons.mp hx with rfl | hx
      · exact h a (List.mem_cons_self a _)
      · exact h x (List.mem_cons_of_mem a (List.mem_cons_of_mem b hx))
    · rw [if_neg hc]
      intro y hy
      rcases List.mem_cons.mp hy with rfl | hy
      · exact h y (List.mem_cons_self y _)
      · exact coalesce_start_bound n _ s (fun x hx => h x (List.mem_cons_of_mem a hx)) y hy

/-- With enough fuel, coalescing a start-sorted list yields pairwise
separated intervals. -/
theorem coalesce_pairwise :
    ∀ (n : Nat) (l : List (Nat × Nat)), l.length ≤ n → l.Sorted startLE →
      (coalesce n l).Pairwise sep
  | 0, l, hn, _ => by
    have h0 : l = [] := List.length_eq_zero.mp (Nat.le_zero.mp hn)
    subst h0
    exact List.Pairwise.nil
  | _ + 1, [], _, _ => by simp [coalesce]
  | _ + 1, [x], _, _ => by simp [coalesce]
  | n + 1, a :: b :: rest, hn, hs => by
    rcases List.sorted_cons.mp hs with ⟨ha, hs1⟩
    have hlen : (b :: rest).length ≤ n := by
      simp only [List.length_cons] at hn ⊢
      omega
    rw [coalesce]
    by_cases hc : b.1 ≤ a.2
    · rw [if_pos hc]
      apply coalesce_pairwise n _ _ _
      · simp only [List.length_cons] at hn ⊢
        omega
      · rw [List.sorted_cons]
        exact ⟨fun c hcm => ha c (List.mem_cons_of_mem b hcm), (List.sorted_cons.mp hs1).2⟩
    · rw [if_neg hc]
      rw [List.pairwise_cons]
      refine ⟨?_, coalesce_pairwise n _ hlen hs1⟩
      intro y hy
      have hby : b.1 ≤ y.1 := by
        apply coalesce_start_bound n (b :: rest) b.1 _ y hy
        intro x hx
        rcases List.mem_cons.mp hx with rfl | hx
        · exact Nat.le_refl x.1
        · exact (List.sorted_cons.mp hs1).1 x hx
      show a.2 < y.1
      omega

/-- For pairwise separated intervals the covered-set size is the sum of
the interval lengths. -/
theorem card_covered_set {l : List (Nat × Nat)} (hp : l.Pairwise sep) :
    (covered_set l).card = (l.map (fun se => se.2 - se.1)).sum := by
  induction l with
  | nil => simp [covered_set]
  | cons x rest ih =>
    rcases List.pairwise_cons.mp hp with ⟨hx, hrest⟩
    have hd : Disjoint (Finset.Ico x.1 x.2) (covered_set rest) := by
      rw [Finset.disjoint_left]
      intro p hp1 hp2
      rcases Finset.mem_Ico.mp hp1 with ⟨_, h2⟩
      rcases mem_covered_set.mp hp2 with ⟨se, hm, hs1, _⟩
      have hsep : x.2 < se.1 := hx se hm
      omega
    simp only [covered_set, List.map_cons, List.sum_cons]
    rw [Finset.card_union_of_disjoint hd, Nat.card_Ico, ih hrest]

/-- Expansion only grows the covered set. -/
theorem covered_set_subset_expand (flank : Nat) (l : List (Nat × Nat)) :
    covered_set l ⊆ covered_set (expand flank l) := by
  induction l with
  | nil => simp [covered_set, expand]
  | cons x rest ih =>
    simp only [expand, List.map_cons] at ih ⊢
    simp only [covered_set]
    exact Finset.union_subset_union
      (Finset.Ico_subset_Ico (Nat.sub_le x.1 flank) (Nat.le_add_right x.2 flank)) ih

/-- The covered length (sum of merged interval lengths) is the number of
covered positions. -/
theorem covered_length_eq_card (l : List (Nat × Nat)) :
    covered_length l = (covered_set l).card := by
  have hsort := List.sorted_insertionSort startLE l
  have h3 := card_covered_set
    (coalesce_pairwise (List.insertionSort startLE l).length _ (Nat.le_refl _) hsort)
  calc covered_length l
      = (covered_set (coalesce (List.insertionSort startLE l).length
          (List.insertionSort startLE l))).card := h3.symm
    _ = (covered_set (List.insertionSort startLE l)).card := by
          rw [coalesce_covered_set _ _ hsort]
    _ = (covered_set l).card := by
          rw [covered_set_of_perm (List.perm_insertionSort startLE l)]

/-- Claim C7: for every region set and every flank, applying `expand` then
`merge_overlap` never decreases the total covered length (the sum of the
interval lengths after merging) compared with the original set's covered
length. -/
theorem C7_expand_merge_mono (R : List (String × List (Nat × Nat))) (flank : Nat) :
    total_covered_length R ≤ total_covered_length (expand_regions flank R) := by
  induction R with
  | nil => exact Nat.le_refl 0
  | cons cr rest ih =>
    simp only [total_covered_length, expand_regions, List.map_cons, List.sum_cons] at ih ⊢
    have hcr : covered_length cr.2 ≤ covered_length (expand flank cr.2) := by
      rw [covered_length_eq_card, covered_length_eq_card]
      exact Finset.card_le_card (covered_set_subset_expand flank cr.2)
    exact Nat.add_le_add hcr ih

/-- Claim C9: whenever the pileup's length-weighted mean is 0, the
fold-change normalization stage fails with `NumericalDegeneracyError` and
produces no artifacts (no `Except.ok` outcome exists for it). -/
theorem C9_zero_mean_degeneracy (t : List (Nat × ℚ)) (h : summary_mean t = 0) :
    fold_change_stage t = Except.error PipelineError.NumericalDegeneracyError ∧
    ∀ out, fold_change_stage t ≠ Except.ok out := by
  have hn : normalize_by_mean t = Except.error PipelineError.NumericalDegeneracyError := by
    unfold normalize_by_mean
    rw [if_pos h]
  constructor
  · unfold fold_change_stage
    rw [hn]
  · intro out hok
    unfold fold_change_stage at hok
    rw [hn] at hok
    exact Except.noConfusion hok

/-- Claim C9 (witness): the zero-length track has summary mean 0 — the
spec's "a zero-length track yields mean=0" — and on it the stage fails
with `NumericalDegeneracyError` and writes nothing. -/
theorem C9_zero_mean_degeneracy_witness :
    summary_mean [] = 0 ∧
    (fold_change_stage ([] : List (Nat × ℚ)) =
      Except.error PipelineError.NumericalDegeneracyError ∧
     ∀ out, fold_change_stage ([] : List (Nat × ℚ)) ≠ Except.ok out) :=
  ⟨rfl, C9_zero_mean_degeneracy [] rfl⟩

/-- Claim C10 (counterexample): on `openEqBgModel` the code computes
`i_open_region = i_background_region = 0`, so the three computed label
indices are not pairwise distinct and do not form a permutation of
`{0, 1, 2}`. -/
theorem C10_not_always_permutation :
    i_open_region openEqBgModel = 0 ∧
    i_background_region openEqBgModel = 0 ∧
    i_nucleosomal_region openEqBgModel = 1 ∧
    ¬ ({i_open_region openEqBgModel, i_nucleosomal_region openEqBgModel,
        i_background_region openEqBgModel} : Finset (Fin 3)) = Finset.univ := by
  decide

end MACS
